import Mathlib

/-!
Shallow embedding of `spaceotd.py` (APODViewer): a pygame image viewer for
NASA's Astronomy Picture of the Day.

The embedding models:
* `ViewerState` — the mutable attributes of `ImageViewer` / `APODViewer`
  (`images`, `current_image`, `render_new`, `running`, `current_date`),
  plus observability ghost fields (`lastLabel`: the text most recently
  drawn by `draw_label` since the last screen fill; `presentCount`: the
  number of `pygame.display.update()` calls; `fetchCalls`: the list of
  dates for which `APOD_api_req` was invoked).
* Dates as day numbers (ℤ): `datetime.strptime`/`strftime` round-trip is
  the identity on valid dates and `timedelta(days=1)` is `- 1`.
* Python float arithmetic in `scale_image` as IEEE-754 binary64
  round-to-nearest, ties-to-even, modelled over ℚ (`fl`); normal range
  only (sub-normals and overflow cannot occur for screen-sized images).
* The network (`APOD_api_req`) as an oracle `ℤ → FetchOutcome`
  parameterising each operation: `ok img` is a successful fetch+decode,
  `osError` is a failure raising an `OSError` subclass (all
  `requests` network errors and PIL decode errors), `otherError` is a
  failure raising anything else (e.g. `KeyError` on a missing `url`
  field, which `except OSError` does not catch).
* Operations that can let a Python exception escape return `Option`:
  `none` is an uncaught exception propagating out (crashing the
  program).
-/

/-- A pygame surface, reduced to what the program observes: its size
(`image.get_size()`, always non-negative). -/
structure Bitmap where
  w : ℕ
  h : ℕ
deriving DecidableEq

/-! ### IEEE-754 binary64 model

A non-negative float value is represented exactly as a fraction
`p : ℕ × ℕ` of value `p.1 / p.2`, so that the kernel can evaluate the
whole pipeline (Mathlib's ℚ operations do not reduce in the kernel).
ℚ appears only in the correctness lemmas, through `valP`. -/

/-- Number of binary digits of `n`, fuel-based so that the kernel can
evaluate it (`nbitsAux fuel n` is correct whenever `n ≤ fuel`). -/
def nbitsAux : ℕ → ℕ → ℕ
  | 0, _ => 0
  | fuel + 1, n => if n = 0 then 0 else nbitsAux fuel (n / 2) + 1

/-- Number of binary digits of `n`: for `n > 0`, `n < 2 ^ nbits n ≤ 2 * n`. -/
def nbits (n : ℕ) : ℕ := nbitsAux n n

/-- Round `n / d` to the nearest natural, ties to even (the IEEE-754
default rounding of the significand). -/
def rneNat (n d : ℕ) : ℕ :=
  let q := n / d
  let r := n % d
  if 2 * r < d then q
  else if d < 2 * r then q + 1
  else if q % 2 = 0 then q else q + 1

/-- The value of a fraction, in ℚ. -/
def valP (p : ℕ × ℕ) : ℚ := (p.1 : ℚ) / (p.2 : ℚ)

/-- Multiply a fraction by `2 ^ k`. -/
def ratShift (p : ℕ × ℕ) (k : ℤ) : ℕ × ℕ :=
  if 0 ≤ k then (p.1 * 2 ^ k.toNat, p.2) else (p.1, p.2 * 2 ^ (-k).toNat)

/-- The binade exponent of a positive fraction `n / d`: the unique `e`
with `2 ^ e ≤ n / d < 2 ^ (e + 1)`, computed from the bit lengths of
numerator and denominator. -/
def qexpP (n d : ℕ) : ℤ :=
  let c : ℤ := (nbits n : ℤ) - (nbits d : ℤ)
  if 0 ≤ c then (if d * 2 ^ c.toNat ≤ n then c else c - 1)
  else (if d ≤ n * 2 ^ (-c).toNat then c else c - 1)

/-- Round a positive fraction to the nearest IEEE-754 binary64 value
(53-bit significand, round to nearest, ties to even), ignoring
exponent range (the program only produces values in the normal
range). -/
def flP (p : ℕ × ℕ) : ℕ × ℕ :=
  let e := qexpP p.1 p.2
  let m := ratShift p (52 - e)
  ratShift (rneNat m.1 m.2, 1) (e - 52)

/-- Python float division `a / b` of two exactly representable
naturals: IEEE division is correctly rounded. -/
def flDivP (a b : ℕ) : ℕ × ℕ := flP (a, b)

/-- Python float multiplication of a float by an exactly representable
natural: IEEE multiplication is correctly rounded. -/
def flMulP (p : ℕ × ℕ) (k : ℕ) : ℕ × ℕ := flP (p.1 * k, p.2)

/-- Python `int()` on a non-negative float: truncation. -/
def truncP (p : ℕ × ℕ) : ℕ := p.1 / p.2

/-! ### The viewer state -/

/-- The state of an `APODViewer` (which extends `ImageViewer`).
`images`, `current_image` (`none` = Python `None`), `render_new`,
`running` and `current_date` are the source attributes; `lastLabel`,
`presentCount` and `fetchCalls` are observability ghosts (see the
module docstring). -/
structure ViewerState where
  images : List Bitmap
  current_image : Option ℤ
  render_new : Bool
  running : Bool
  current_date : ℤ
  lastLabel : Option String
  presentCount : ℕ
  fetchCalls : List ℤ
deriving DecidableEq

/-- `ImageViewer.shift_left`: if an image is selected, move the
selection one to the left, clamped at 0, and mark a render. -/
def shift_left (s : ViewerState) : ViewerState :=
  match s.current_image with
  | none => s
  | some c => { s with current_image := some (max 0 (c - 1)), render_new := true }

/-- `ImageViewer.shift_right`: if an image is selected, move the
selection one to the right, clamped at `len(images) - 1`, and mark a
render. -/
def shift_right (s : ViewerState) : ViewerState :=
  match s.current_image with
  | none => s
  | some c =>
    { s with current_image := some (min ((s.images.length : ℤ) - 1) (c + 1)),
             render_new := true }

/-- `ImageViewer.scale_image`: the window is `(600, 450)`
(`pygame.display.set_mode((600, 450))`); the factor is `600 / x` when
`x > y` and `450 / y` otherwise, computed in Python floats, and each
new dimension is `int(scale * dim)`.  (A zero dimension would raise
`ZeroDivisionError` in Python; real surfaces have positive size.) -/
def scale_image (image : Bitmap) : Bitmap :=
  let scale : ℕ × ℕ := if image.w > image.h then flDivP 600 image.w else flDivP 450 image.h
  { w := truncP (flMulP scale image.w), h := truncP (flMulP scale image.h) }

/-- `ImageViewer.add_image`: append, mark a render, select index 0 if
nothing was selected, otherwise advance the selection by one. -/
def add_image (s : ViewerState) (image : Bitmap) : ViewerState :=
  { s with
    images := s.images ++ [image]
    render_new := true
    current_image :=
      match s.current_image with
      | none => some 0
      | some c => some (c + 1) }

/-- Python list indexing `l[i]`: negative indices count from the end;
`none` is an `IndexError`. -/
def pyIndex {α : Type} (l : List α) (i : ℤ) : Option α :=
  let j : ℤ := if i < 0 then i + l.length else i
  if h : 0 ≤ j ∧ j.toNat < l.length then some (l.get ⟨j.toNat, h.2⟩) else none

/-- `ImageViewer.draw`: if a render is pending, fill the screen black
(erasing any label), blit `images[current_image]` and present the
frame.  `none` is an uncaught exception: a `TypeError` when
`current_image` is `None`, an `IndexError` when it is out of range. -/
def draw (s : ViewerState) : Option ViewerState :=
  if s.render_new then
    match s.current_image with
    | none => none
    | some c =>
      match pyIndex s.images c with
      | none => none
      | some _ =>
        some { s with render_new := false, lastLabel := none,
                      presentCount := s.presentCount + 1 }
  else some s

/-- `APODViewer.draw_label`: render a text label, blit it and present
the frame. -/
def draw_label (s : ViewerState) (text : String) : ViewerState :=
  { s with lastLabel := some text, presentCount := s.presentCount + 1 }

/-- `self.root.fill((0, 0, 0))`: the screen is cleared, erasing any
label. -/
def fill (s : ViewerState) : ViewerState := { s with lastLabel := none }

/-- Outcome of one `APOD_api_req` call for a given date: a decoded
bitmap, a failure raising (a subclass of) `OSError`, or a failure
raising any other exception. -/
inductive FetchOutcome where
  | ok (img : Bitmap)
  | osError
  | otherError
deriving DecidableEq

/-- `APODViewer.add_API_image`: issue the request for `current_date`
(logged in `fetchCalls`); on success scale and add the image; on
`OSError` fill the screen and show "Error..."; any other exception
propagates. -/
def add_API_image (api : ℤ → FetchOutcome) (s : ViewerState) : Option ViewerState :=
  let s0 := { s with fetchCalls := s.fetchCalls ++ [s.current_date] }
  match api s.current_date with
  | .ok raw => some (add_image s0 (scale_image raw))
  | .osError => some (draw_label (fill s0) "Error...")
  | .otherError => none

/-- `APODViewer.load_and_add`: if the selection is at the last index,
show "Loading...", step `current_date` back one day and fetch for it;
otherwise just shift right.  (Python `None == len(images) - 1` is
`False`, so an unset selection always takes the shift branch.) -/
def load_and_add (api : ℤ → FetchOutcome) (s : ViewerState) : Option ViewerState :=
  if s.current_image = some ((s.images.length : ℤ) - 1) then
    let s1 := draw_label s "Loading..."
    let s2 := { s1 with current_date := s1.current_date - 1 }
    add_API_image api s2
  else some (shift_right s)

/-- `APODViewer.pre_load`: call `load_and_add` `count` times, then set
`current_image = 0` unconditionally. -/
def pre_load (api : ℤ → FetchOutcome) : ℕ → ViewerState → Option ViewerState
  | 0, s => some { s with current_image := some 0 }
  | n + 1, s => (load_and_add api s).bind (pre_load api n)

/-- `APODViewer.__init__` after the `ImageViewer.__init__` part: start
with an empty sequence, no selection, a pending render and today's
date; draw "Loading...", do the initial `add_API_image`, then
`pre_load`. -/
def APODViewer_init (api : ℤ → FetchOutcome) (today : ℤ) (preload : ℕ) :
    Option ViewerState :=
  let s0 : ViewerState :=
    { images := [], current_image := none, render_new := true, running := true,
      current_date := today, lastLabel := none, presentCount := 0, fetchCalls := [] }
  let s1 := draw_label s0 "Loading..."
  (add_API_image api s1).bind (fun s2 => pre_load api preload s2)

/-- Iterated paging: `n` presses of the "go further back" key, each
running `load_and_add` (stopping if an exception propagates). -/
def run_pages (api : ℤ → FetchOutcome) : ℕ → ViewerState → Option ViewerState
  | 0, s => some s
  | n + 1, s => (load_and_add api s).bind (run_pages api n)

/-- A cursor-shift call, in either direction. -/
inductive ShiftOp where
  | left
  | right
deriving DecidableEq

/-- Apply one shift call. -/
def applyShift (s : ViewerState) : ShiftOp → ViewerState
  | .left => shift_left s
  | .right => shift_right s

/-- Apply a sequence of shift calls. -/
def applyShifts (ops : List ShiftOp) (s : ViewerState) : ViewerState :=
  ops.foldl applyShift s

/-! ### Correctness of the float model -/

theorem nbitsAux_zero (fuel : ℕ) : nbitsAux fuel 0 = 0 := by
  cases fuel <;> rfl

theorem nbitsAux_spec (fuel : ℕ) :
    ∀ n : ℕ, n ≤ fuel →
      n < 2 ^ nbitsAux fuel n ∧ (0 < n → 2 ^ nbitsAux fuel n ≤ 2 * n) := by
  induction fuel with
  | zero =>
    intro n h
    have hn : n = 0 := by omega
    subst hn
    simp [nbitsAux]
  | succ f ih =>
    intro n h
    by_cases hn : n = 0
    · subst hn
      simp [nbitsAux]
    · have h2 : n / 2 ≤ f := by omega
      obtain ⟨A, B⟩ := ih (n / 2) h2
      have hrw : nbitsAux (f + 1) n = nbitsAux f (n / 2) + 1 := by
        simp [nbitsAux, hn]
      rw [hrw, pow_succ]
      by_cases h1 : n = 1
      · subst h1
        have hz : (1 : ℕ) / 2 = 0 := rfl
        rw [hz, nbitsAux_zero]
        norm_num
      · have hB2 := B (by omega)
        constructor
        · omega
        · intro _
          omega

theorem nbits_lt (n : ℕ) : n < 2 ^ nbits n :=
  (nbitsAux_spec n n le_rfl).1

theorem nbits_le (n : ℕ) (hn : 0 < n) : 2 ^ nbits n ≤ 2 * n :=
  (nbitsAux_spec n n le_rfl).2 hn

theorem rneNat_err (n d : ℕ) (hd : 0 < d) :
    |(rneNat n d : ℚ) - (n : ℚ) / d| ≤ 1 / 2 := by
  have hd0 : (0 : ℚ) < d := by exact_mod_cast hd
  have hval : (n : ℚ) / d = ((n / d : ℕ) : ℚ) + ((n % d : ℕ) : ℚ) / d := by
    have key : (n : ℚ) = d * ((n / d : ℕ) : ℚ) + ((n % d : ℕ) : ℚ) := by
      exact_mod_cast (Nat.div_add_mod n d).symm
    field_simp
    linarith
  have hr_nonneg : (0 : ℚ) ≤ ((n % d : ℕ) : ℚ) / d := by positivity
  have hr_lt1 : ((n % d : ℕ) : ℚ) / d < 1 := by
    rw [div_lt_one hd0]
    exact_mod_cast Nat.mod_lt n hd
  simp only [rneNat]
  split_ifs with hc1 hc2 hc3
  · have hc1q : (2 : ℚ) * ((n % d : ℕ) : ℚ) < (d : ℚ) := by exact_mod_cast hc1
    have hle : ((n % d : ℕ) : ℚ) / d ≤ 1 / 2 := by
      rw [div_le_div_iff₀ hd0 two_pos]
      linarith
    rw [hval, abs_le]
    constructor <;> linarith
  · have hc2q : (d : ℚ) < 2 * ((n % d : ℕ) : ℚ) := by exact_mod_cast hc2
    have hge : (1 : ℚ) / 2 ≤ ((n % d : ℕ) : ℚ) / d := by
      rw [div_le_div_iff₀ two_pos hd0]
      linarith
    rw [hval, abs_le]
    push_cast
    constructor <;> linarith
  · have hdq : (d : ℚ) = 2 * ((n % d : ℕ) : ℚ) := by
      exact_mod_cast (show d = 2 * (n % d) by omega)
    have heq : ((n % d : ℕ) : ℚ) / d = 1 / 2 := by
      rw [div_eq_div_iff hd0.ne' two_ne_zero]
      linarith
    rw [hval, abs_le]
    constructor <;> linarith
  · have hdq : (d : ℚ) = 2 * ((n % d : ℕ) : ℚ) := by
      exact_mod_cast (show d = 2 * (n % d) by omega)
    have heq : ((n % d : ℕ) : ℚ) / d = 1 / 2 := by
      rw [div_eq_div_iff hd0.ne' two_ne_zero]
      linarith
    rw [hval, abs_le]
    push_cast
    constructor <;> linarith

theorem ratShift_snd (p : ℕ × ℕ) (k : ℤ) (h : p.2 ≠ 0) : (ratShift p k).2 ≠ 0 := by
  unfold ratShift
  split_ifs <;> simp [h]

theorem valP_ratShift (p : ℕ × ℕ) (k : ℤ) (h : p.2 ≠ 0) :
    valP (ratShift p k) = valP p * (2 : ℚ) ^ k := by
  have hq : ((p.2 : ℚ)) ≠ 0 := by exact_mod_cast h
  unfold ratShift valP
  split_ifs with hk
  · have h2 : (2 : ℚ) ^ k = (2 : ℚ) ^ k.toNat := by
      rw [← zpow_natCast]
      congr 1
      omega
    rw [h2]
    push_cast
    ring
  · have h2 : (2 : ℚ) ^ k = ((2 : ℚ) ^ (-k).toNat)⁻¹ := by
      rw [← zpow_natCast, ← zpow_neg]
      congr 1
      omega
    have h3 : ((2 : ℚ) ^ (-k).toNat) ≠ 0 := by positivity
    rw [h2]
    push_cast
    field_simp

theorem qexpP_spec (n d : ℕ) (hn : 0 < n) (hd : 0 < d) :
    (2 : ℚ) ^ qexpP n d ≤ (n : ℚ) / d ∧ (n : ℚ) / d < (2 : ℚ) ^ (qexpP n d + 1) := by
  have hdq : (0 : ℚ) < d := by exact_mod_cast hd
  have hnq : (0 : ℚ) < n := by exact_mod_cast hn
  set p := nbits n with hp
  set dd := nbits d with hdd
  set c : ℤ := (p : ℤ) - (dd : ℤ) with hc
  have hn_lt : (n : ℚ) < 2 ^ (p : ℤ) := by
    rw [zpow_natCast]
    exact_mod_cast nbits_lt n
  have hn_ge : 2 ^ (p : ℤ) ≤ 2 * (n : ℚ) := by
    rw [zpow_natCast]
    exact_mod_cast nbits_le n hn
  have hd_lt : (d : ℚ) < 2 ^ (dd : ℤ) := by
    rw [zpow_natCast]
    exact_mod_cast nbits_lt d
  have hd_ge : 2 ^ (dd : ℤ) ≤ 2 * (d : ℚ) := by
    rw [zpow_natCast]
    exact_mod_cast nbits_le d hd
  have hGU : (n : ℚ) / d < 2 ^ (c + 1) := by
    rw [div_lt_iff hdq]
    have e1 : (2 : ℚ) ^ (c + 1) * (2 : ℚ) ^ ((dd : ℤ) - 1) = 2 ^ (p : ℤ) := by
      rw [← zpow_add₀ (two_ne_zero (α := ℚ))]
      congr 1
      omega
    have e2 : (2 : ℚ) ^ ((dd : ℤ) - 1) ≤ d := by
      have h2 : (2 : ℚ) ^ (dd : ℤ) = 2 * 2 ^ ((dd : ℤ) - 1) := by
        rw [← zpow_one_add₀ (two_ne_zero (α := ℚ))]
        congr 1
        omega
      linarith
    calc (n : ℚ) < 2 ^ (p : ℤ) := hn_lt
      _ = 2 ^ (c + 1) * 2 ^ ((dd : ℤ) - 1) := e1.symm
      _ ≤ 2 ^ (c + 1) * d := by
          apply mul_le_mul_of_nonneg_left e2 (by positivity)
  have hGL : (2 : ℚ) ^ (c - 1) < (n : ℚ) / d := by
    rw [lt_div_iff hdq]
    have e1 : (2 : ℚ) ^ (c - 1) * (2 : ℚ) ^ (dd : ℤ) = 2 ^ ((p : ℤ) - 1) := by
      rw [← zpow_add₀ (two_ne_zero (α := ℚ))]
      congr 1
      omega
    have e2 : (2 : ℚ) ^ ((p : ℤ) - 1) ≤ n := by
      have h2 : (2 : ℚ) ^ (p : ℤ) = 2 * 2 ^ ((p : ℤ) - 1) := by
        rw [← zpow_one_add₀ (two_ne_zero (α := ℚ))]
        congr 1
        omega
      linarith
    calc (2 : ℚ) ^ (c - 1) * d < 2 ^ (c - 1) * 2 ^ (dd : ℤ) := by
          apply mul_lt_mul_of_pos_left hd_lt (by positivity)
      _ = 2 ^ ((p : ℤ) - 1) := e1
      _ ≤ n := e2
  have hq_pos : (0 : ℚ) < (n : ℚ) / d := by positivity
  simp only [qexpP, ← hp, ← hdd, ← hc]
  split_ifs with h0 hcmp hcmp
  · -- 0 ≤ c, comparison true: 2 ^ c ≤ n / d
    have hcq : (d : ℚ) * (2 : ℚ) ^ c ≤ n := by
      have hcast : ((d * 2 ^ c.toNat : ℕ) : ℚ) ≤ (n : ℚ) := by exact_mod_cast hcmp
      have h2 : (2 : ℚ) ^ c = (2 : ℚ) ^ c.toNat := by
        rw [← zpow_natCast]
        congr 1
        omega
      rw [h2]
      push_cast at hcast
      linarith
    constructor
    · rw [le_div_iff hdq]
      linarith
    · exact hGU
  · -- 0 ≤ c, comparison false: n / d < 2 ^ c, result c - 1
    have hcq : (n : ℚ) < (d : ℚ) * (2 : ℚ) ^ c := by
      have hcast : (n : ℚ) < ((d * 2 ^ c.toNat : ℕ) : ℚ) := by
        exact_mod_cast Nat.lt_of_not_le hcmp
      have h2 : (2 : ℚ) ^ c = (2 : ℚ) ^ c.toNat := by
        rw [← zpow_natCast]
        congr 1
        omega
      rw [h2]
      push_cast at hcast
      linarith
    constructor
    · exact hGL.le
    · have : (c - 1) + 1 = c := by omega
      rw [this, div_lt_iff hdq]
      linarith
  · -- c < 0, comparison true: 2 ^ c ≤ n / d
    have hcq : (d : ℚ) ≤ (n : ℚ) * (2 : ℚ) ^ (-c : ℤ) := by
      have hcast : ((d : ℕ) : ℚ) ≤ ((n * 2 ^ (-c).toNat : ℕ) : ℚ) := by exact_mod_cast hcmp
      have h2 : (2 : ℚ) ^ (-c : ℤ) = (2 : ℚ) ^ (-c).toNat := by
        rw [← zpow_natCast]
        congr 1
        omega
      rw [h2]
      push_cast at hcast
      linarith
    constructor
    · rw [le_div_iff hdq]
      have hmul := mul_le_mul_of_nonneg_right hcq
        (le_of_lt (zpow_pos (by norm_num : (0:ℚ) < 2) c))
      have hcancel : (n : ℚ) * (2 : ℚ) ^ (-c : ℤ) * (2 : ℚ) ^ c = n := by
        rw [mul_assoc, ← zpow_add₀ (two_ne_zero (α := ℚ))]
        simp
      rw [hcancel] at hmul
      linarith [hmul]
    · exact hGU
  · -- c < 0, comparison false: n / d < 2 ^ c, result c - 1
    have hcq : (n : ℚ) * (2 : ℚ) ^ (-c : ℤ) < (d : ℚ) := by
      have hcast : ((n * 2 ^ (-c).toNat : ℕ) : ℚ) < ((d : ℕ) : ℚ) := by
        exact_mod_cast Nat.lt_of_not_le hcmp
      have h2 : (2 : ℚ) ^ (-c : ℤ) = (2 : ℚ) ^ (-c).toNat := by
        rw [← zpow_natCast]
        congr 1
        omega
      rw [h2]
      push_cast at hcast
      linarith
    constructor
    · exact hGL.le
    · have he : (c - 1) + 1 = c := by omega
      rw [he, div_lt_iff hdq]
      have hmul := mul_lt_mul_of_pos_right hcq (zpow_pos (by norm_num : (0:ℚ) < 2) c)
      have hcancel : (n : ℚ) * (2 : ℚ) ^ (-c : ℤ) * (2 : ℚ) ^ c = n := by
        rw [mul_assoc, ← zpow_add₀ (two_ne_zero (α := ℚ))]
        simp
      rw [hcancel] at hmul
      linarith [hmul]

theorem flP_spec (p : ℕ × ℕ) (h1 : 0 < p.1) (h2 : 0 < p.2) :
    (flP p).2 ≠ 0 ∧ |valP (flP p) - valP p| ≤ valP p / 2 ^ 53 := by
  obtain ⟨hlo, hhi⟩ := qexpP_spec p.1 p.2 h1 h2
  have hvp : valP p = (p.1 : ℚ) / p.2 := rfl
  rw [← hvp] at hlo hhi
  set e := qexpP p.1 p.2 with he
  set m := ratShift p (52 - e) with hm
  have hp2 : p.2 ≠ 0 := h2.ne'
  have hm2 : m.2 ≠ 0 := ratShift_snd p _ hp2
  have hm2p : 0 < m.2 := Nat.pos_of_ne_zero hm2
  have hmval : valP m = valP p * (2 : ℚ) ^ ((52 : ℤ) - e) := valP_ratShift p _ hp2
  set r := rneNat m.1 m.2 with hr
  have hrerr : |(r : ℚ) - valP m| ≤ 1 / 2 := rneNat_err m.1 m.2 hm2p
  have hflrw : flP p = ratShift (r, 1) (e - 52) := by
    simp only [flP, ← he, ← hm, ← hr]
  have hres2 : (flP p).2 ≠ 0 := by
    rw [hflrw]
    exact ratShift_snd (r, 1) _ one_ne_zero
  have hresval : valP (flP p) = (r : ℚ) * (2 : ℚ) ^ (e - 52) := by
    rw [hflrw, valP_ratShift (r, 1) _ one_ne_zero]
    simp [valP]
  have hq : valP p = valP m * (2 : ℚ) ^ (e - 52) := by
    rw [hmval, mul_assoc, ← zpow_add₀ (two_ne_zero (α := ℚ))]
    norm_num
  have hdiff : valP (flP p) - valP p = ((r : ℚ) - valP m) * (2 : ℚ) ^ (e - 52) := by
    rw [hresval, hq]
    ring
  refine ⟨hres2, ?_⟩
  rw [hdiff, abs_mul, abs_of_pos (zpow_pos (by norm_num : (0:ℚ) < 2) (e - 52))]
  have step1 : |(r : ℚ) - valP m| * (2 : ℚ) ^ (e - 52) ≤ (1 / 2) * (2 : ℚ) ^ (e - 52) := by
    apply mul_le_mul_of_nonneg_right hrerr (by positivity)
  have step2 : (1 / 2 : ℚ) * (2 : ℚ) ^ (e - 52) = (2 : ℚ) ^ (e - 53) := by
    have : (1 / 2 : ℚ) = (2 : ℚ) ^ (-1 : ℤ) := by norm_num
    rw [this, ← zpow_add₀ (two_ne_zero (α := ℚ))]
    congr 1
    omega
  have step3 : (2 : ℚ) ^ (e - 53) ≤ valP p / 2 ^ 53 := by
    have hsplit : (2 : ℚ) ^ (e - 53) = (2 : ℚ) ^ e / 2 ^ 53 := by
      rw [eq_div_iff (by positivity : ((2:ℚ) ^ 53) ≠ 0), ← zpow_natCast (2:ℚ) 53,
        ← zpow_add₀ (two_ne_zero (α := ℚ))]
      congr 1
      omega
    rw [hsplit]
    gcongr
  calc |(r : ℚ) - valP m| * (2 : ℚ) ^ (e - 52)
      ≤ (1 / 2) * (2 : ℚ) ^ (e - 52) := step1
    _ = (2 : ℚ) ^ (e - 53) := step2
    _ ≤ valP p / 2 ^ 53 := step3
theorem flchain_bounds (a x : ℕ) (ha : 0 < a) (hx : 0 < x) :
    (a : ℚ) * (1 - 1 / 2 ^ 50) < valP (flMulP (flDivP a x) x) ∧
    valP (flMulP (flDivP a x) x) < (a : ℚ) * (1 + 1 / 2 ^ 50) := by
  have haq : (0 : ℚ) < a := by exact_mod_cast ha
  have hxq : (0 : ℚ) < x := by exact_mod_cast hx
  have hu : (0 : ℚ) < (a : ℚ) / x := by positivity
  obtain ⟨hd2, hderr⟩ := flP_spec (a, x) ha hx
  have hderr2 := abs_le.mp hderr
  have hvax : valP (a, x) = (a : ℚ) / x := rfl
  rw [hvax] at hderr2
  set D := valP (flDivP a x) with hD
  have hDeq : valP (flP (a, x)) = D := by rw [hD]; rfl
  rw [hDeq] at hderr2
  have hDlo : (a : ℚ) / x - (a : ℚ) / x / 2 ^ 53 ≤ D := by linarith [hderr2.1]
  have hDhi : D ≤ (a : ℚ) / x + (a : ℚ) / x / 2 ^ 53 := by linarith [hderr2.2]
  have hsmall : (a : ℚ) / x / 2 ^ 53 < (a : ℚ) / x := by
    apply div_lt_self hu
    norm_num
  have hDpos : 0 < D := by linarith
  have hD1 : 0 < (flDivP a x).1 := by
    rcases Nat.eq_zero_or_pos (flDivP a x).1 with h0 | hpos
    · exfalso
      have hz : D = 0 := by
        rw [hD]
        unfold valP
        rw [h0]
        simp
      linarith
    · exact hpos
  have hin1 : 0 < (flDivP a x).1 * x := Nat.mul_pos hD1 hx
  obtain ⟨hr2, hrerr⟩ := flP_spec ((flDivP a x).1 * x, (flDivP a x).2) hin1
    (Nat.pos_of_ne_zero hd2)
  have hinval : valP ((flDivP a x).1 * x, (flDivP a x).2) = D * x := by
    rw [hD]
    unfold valP
    push_cast
    ring
  rw [hinval] at hrerr
  have hflrw : flMulP (flDivP a x) x = flP ((flDivP a x).1 * x, (flDivP a x).2) := rfl
  set R := valP (flMulP (flDivP a x) x) with hR
  have hrerr2 : |R - D * x| ≤ D * x / 2 ^ 53 := by
    rw [hR, hflrw]
    exact hrerr
  have hRB := abs_le.mp hrerr2
  have e1 : ((a : ℚ) / x) * x = a := div_mul_cancel₀ _ hxq.ne'
  have e2 : ((a : ℚ) / x / 2 ^ 53) * x = a / 2 ^ 53 := by
    field_simp
    ring
  have hDx_lo : (a : ℚ) - a / 2 ^ 53 ≤ D * x := by
    have t2 := mul_le_mul_of_nonneg_right hDlo hxq.le
    calc (a : ℚ) - a / 2 ^ 53
        = ((a : ℚ) / x - (a : ℚ) / x / 2 ^ 53) * x := by rw [sub_mul, e1, e2]
      _ ≤ D * x := t2
  have hDx_hi : D * x ≤ (a : ℚ) + a / 2 ^ 53 := by
    have t2 := mul_le_mul_of_nonneg_right hDhi hxq.le
    calc D * x ≤ ((a : ℚ) / x + (a : ℚ) / x / 2 ^ 53) * x := t2
      _ = (a : ℚ) + a / 2 ^ 53 := by rw [add_mul, e1, e2]
  have hDx_pos : 0 < D * x := mul_pos hDpos hxq
  have hu1 : D * x / 2 ^ 53 ≤ ((a : ℚ) + a / 2 ^ 53) / 2 ^ 53 := by
    gcongr
  have hconst : ((1 : ℚ) / 2 ^ 53 + (1 / 2 ^ 53 + 1 / 2 ^ 106)) < 1 / 2 ^ 50 := by
    norm_num
  have hmul := mul_lt_mul_of_pos_left hconst haq
  have hexpand : ((a : ℚ) + a / 2 ^ 53) / 2 ^ 53 = a / 2 ^ 53 + a / 2 ^ 106 := by
    field_simp
    ring
  constructor
  · have hRlo : D * x - D * x / 2 ^ 53 ≤ R := by linarith [hRB.1]
    have hfin : (a : ℚ) - a / 2 ^ 53 - (a / 2 ^ 53 + a / 2 ^ 106) ≤ R := by
      rw [← hexpand]
      linarith
    linarith [hfin, hmul]
  · have hRhi : R ≤ D * x + D * x / 2 ^ 53 := by linarith [hRB.2]
    have hfin : R ≤ (a : ℚ) + a / 2 ^ 53 + (a / 2 ^ 53 + a / 2 ^ 106) := by
      rw [← hexpand]
      linarith
    linarith [hfin, hmul]

theorem trunc_chain (a x : ℕ) (ha : 0 < a) (hx : 0 < x) (hA : a < 2 ^ 50) :
    truncP (flMulP (flDivP a x) x) = a ∨ truncP (flMulP (flDivP a x) x) = a - 1 := by
  obtain ⟨hlo, hhi⟩ := flchain_bounds a x ha hx
  set R := valP (flMulP (flDivP a x) x) with hRdef
  have haq : (1 : ℚ) ≤ a := by exact_mod_cast ha
  have hc : (0 : ℚ) < 1 - 1 / 2 ^ 50 := by norm_num
  have hRpos : 0 < R := lt_of_lt_of_le (by nlinarith) hlo.le
  have htr : truncP (flMulP (flDivP a x) x) = ⌊R⌋₊ := by
    rw [hRdef]
    exact (Nat.floor_div_eq_div _ _).symm
  have hA1 : (a : ℚ) < 2 ^ 50 := by exact_mod_cast hA
  have hfrac : (a : ℚ) / 2 ^ 50 < 1 := (div_lt_one (by positivity)).mpr hA1
  have hexp : (a : ℚ) * (1 - 1 / 2 ^ 50) = a - a / 2 ^ 50 := by ring
  have hexp2 : (a : ℚ) * (1 + 1 / 2 ^ 50) = a + a / 2 ^ 50 := by ring
  have hlow : (a : ℚ) - 1 < R := by
    rw [hexp] at hlo
    linarith
  have hhigh : R < (a : ℚ) + 1 := by
    rw [hexp2] at hhi
    linarith
  have hfl_le : ⌊R⌋₊ ≤ a := by
    have := (Nat.floor_lt hRpos.le).mpr (show R < ((a + 1 : ℕ) : ℚ) by push_cast; linarith)
    omega
  have hfl_ge : a - 1 ≤ ⌊R⌋₊ := by
    apply Nat.le_floor
    have hcast : ((a - 1 : ℕ) : ℚ) = (a : ℚ) - 1 := by
      have : (1 : ℕ) ≤ a := ha
      push_cast [this]
      ring
    rw [hcast]
    linarith
  rw [htr]
  omega

/-! ### Basic facts about the viewer operations -/

theorem applyShifts_cons (op : ShiftOp) (ops : List ShiftOp) (s : ViewerState) :
    applyShifts (op :: ops) s = applyShifts ops (applyShift s op) := rfl

theorem shift_left_none (s : ViewerState) (h : s.current_image = none) :
    shift_left s = s := by
  simp [shift_left, h]

theorem shift_right_none (s : ViewerState) (h : s.current_image = none) :
    shift_right s = s := by
  simp [shift_right, h]

theorem applyShift_none (s : ViewerState) (op : ShiftOp) (h : s.current_image = none) :
    applyShift s op = s := by
  cases op
  · exact shift_left_none s h
  · exact shift_right_none s h

theorem shift_left_some (s : ViewerState) (c : ℤ) (h : s.current_image = some c) :
    shift_left s =
      { s with current_image := some (max 0 (c - 1)), render_new := true } := by
  simp [shift_left, h]

theorem shift_right_some (s : ViewerState) (c : ℤ) (h : s.current_image = some c) :
    shift_right s =
      { s with current_image := some (min ((s.images.length : ℤ) - 1) (c + 1)),
               render_new := true } := by
  simp [shift_right, h]

/-! ### Claim theorems -/

/-- Claim C6 (confirmed): for every sequence of cursor-shift calls in
either direction, the cursor stays unset (and every call is a no-op)
when it is unset, and stays within `[0, length - 1]` whenever it is set
in that range (the sequence is then non-empty); the image list is never
changed; access is prevented by clamping — the shift operations are
total and raise nothing. -/
theorem shift_cursor_invariant (ops : List ShiftOp) (s : ViewerState) :
    (s.current_image = none → applyShifts ops s = s) ∧
    (∀ c : ℤ, s.current_image = some c → 0 ≤ c → c ≤ (s.images.length : ℤ) - 1 →
      (applyShifts ops s).images = s.images ∧
      ∃ c2 : ℤ, (applyShifts ops s).current_image = some c2 ∧
        0 ≤ c2 ∧ c2 ≤ (s.images.length : ℤ) - 1) := by
  induction ops generalizing s with
  | nil => exact ⟨fun _ => rfl, fun c hc h0 h1 => ⟨rfl, c, hc, h0, h1⟩⟩
  | cons op ops ih =>
    constructor
    · intro h
      rw [applyShifts_cons, applyShift_none s op h]
      exact (ih s).1 h
    · intro c hc h0 h1
      rw [applyShifts_cons]
      have hgoal : ∃ c1 : ℤ, (applyShift s op).current_image = some c1 ∧
          0 ≤ c1 ∧ c1 ≤ (s.images.length : ℤ) - 1 := by
        cases op
        · refine ⟨max 0 (c - 1), ?_, le_max_left _ _, ?_⟩
          · rw [show applyShift s ShiftOp.left = shift_left s from rfl,
              shift_left_some s c hc]
          · have : max 0 (c - 1) ≤ c := max_le h0 (by linarith)
            linarith
        · refine ⟨min ((s.images.length : ℤ) - 1) (c + 1), ?_, ?_, min_le_left _ _⟩
          · rw [show applyShift s ShiftOp.right = shift_right s from rfl,
              shift_right_some s c hc]
          · exact le_min (by linarith) (by linarith)
      obtain ⟨c1, hc1, h01, h11⟩ := hgoal
      have himg : (applyShift s op).images = s.images := by
        cases op
        · rw [show applyShift s ShiftOp.left = shift_left s from rfl,
            shift_left_some s c hc]
        · rw [show applyShift s ShiftOp.right = shift_right s from rfl,
            shift_right_some s c hc]
      have hih := (ih (applyShift s op)).2 c1 hc1 h01 (by rw [himg]; exact h11)
      obtain ⟨hi, c2, hcc2, h02, h12⟩ := hih
      rw [himg] at hi h12
      exact ⟨hi, c2, hcc2, h02, h12⟩

/-- Witness for C6, at a two-image state with the cursor at 0 and the
calls right, right, left. -/
theorem shift_cursor_invariant_witness :
    (applyShifts [ShiftOp.right, ShiftOp.right, ShiftOp.left]
        ⟨[⟨1, 1⟩, ⟨2, 2⟩], some 0, false, true, 0, none, 0, []⟩).images =
      (⟨[⟨1, 1⟩, ⟨2, 2⟩], some 0, false, true, 0, none, 0, []⟩ : ViewerState).images ∧
    ∃ c2 : ℤ,
      (applyShifts [ShiftOp.right, ShiftOp.right, ShiftOp.left]
          ⟨[⟨1, 1⟩, ⟨2, 2⟩], some 0, false, true, 0, none, 0, []⟩).current_image = some c2 ∧
      0 ≤ c2 ∧
      c2 ≤ ((⟨[⟨1, 1⟩, ⟨2, 2⟩], some 0, false, true, 0, none, 0, []⟩ :
        ViewerState).images.length : ℤ) - 1 :=
  (shift_cursor_invariant [ShiftOp.right, ShiftOp.right, ShiftOp.left]
    ⟨[⟨1, 1⟩, ⟨2, 2⟩], some 0, false, true, 0, none, 0, []⟩).2 0 rfl (by decide) (by decide)

/-- Claim C3 (amended): `add_image` appends the bitmap, sets the render
flag, sets the cursor to 0 when it was unset and otherwise advances it
by exactly one; the new cursor equals the new last index when the
cursor was previously at the last index (but not in general). -/
theorem add_image_spec (s : ViewerState) (b : Bitmap) :
    (add_image s b).images = s.images ++ [b] ∧
    (add_image s b).render_new = true ∧
    (s.current_image = none → (add_image s b).current_image = some 0) ∧
    (∀ c : ℤ, s.current_image = some c →
      (add_image s b).current_image = some (c + 1)) ∧
    (s.current_image = some ((s.images.length : ℤ) - 1) →
      (add_image s b).current_image =
        some (((add_image s b).images.length : ℤ) - 1)) := by
  refine ⟨rfl, rfl, ?_, ?_, ?_⟩
  · intro h
    simp [add_image, h]
  · intro c h
    simp [add_image, h]
  · intro h
    simp only [add_image, h]
    simp only [List.length_append, List.length_cons, List.length_nil]
    congr 1
    push_cast
    ring

/-- Witness for C3, on an empty viewer and on a one-image viewer with
the cursor at the last index. -/
theorem add_image_spec_witness :
    (add_image ⟨[], none, false, true, 0, none, 0, []⟩ ⟨2, 2⟩).current_image = some 0 ∧
    (add_image ⟨[⟨1, 1⟩], some 0, false, true, 0, none, 0, []⟩ ⟨2, 2⟩).current_image =
      some (((add_image ⟨[⟨1, 1⟩], some 0, false, true, 0, none, 0, []⟩
        ⟨2, 2⟩).images.length : ℤ) - 1) :=
  ⟨(add_image_spec ⟨[], none, false, true, 0, none, 0, []⟩ ⟨2, 2⟩).2.2.1 rfl,
   (add_image_spec ⟨[⟨1, 1⟩], some 0, false, true, 0, none, 0, []⟩ ⟨2, 2⟩).2.2.2.2 (by decide)⟩

/-- Counterexample to C3 as stated: with two images loaded and the
cursor at index 0, appending advances the cursor to 1, which is not the
new last index 2. -/
theorem add_image_cursor_not_last_cex :
    ¬ ((add_image ⟨[⟨1, 1⟩, ⟨1, 2⟩], some 0, false, true, 0, none, 0, []⟩
        ⟨1, 3⟩).current_image =
      some (((add_image ⟨[⟨1, 1⟩, ⟨1, 2⟩], some 0, false, true, 0, none, 0, []⟩
        ⟨1, 3⟩).images.length : ℤ) - 1)) := by
  decide

/-- Claim C9 (confirmed): `draw` presents a frame (the presentation
count grows) exactly when the render flag was set before the call; it
clears the flag, and an immediately repeated call is a no-op, so two
consecutive calls present exactly once. -/
theorem draw_spec (s s1 : ViewerState) (h : draw s = some s1) :
    ((s1.presentCount = s.presentCount + 1) ↔ s.render_new = true) ∧
    s1.render_new = false ∧
    draw s1 = some s1 ∧
    (s.render_new = false → s1 = s) := by
  by_cases hr : s.render_new
  · cases hc : s.current_image with
    | none =>
      exfalso
      simp [draw, hr, hc] at h
    | some c =>
      cases hp : pyIndex s.images c with
      | none =>
        exfalso
        simp [draw, hr, hc, hp] at h
      | some img =>
        simp [draw, hr, hc, hp] at h
        subst h
        refine ⟨by simp [hr], rfl, ?_, ?_⟩
        · rw [draw]
          simp
        · intro hfalse
          rw [hr] at hfalse
          exact absurd hfalse (by simp)
  · have hrn : s.render_new = false := by
      revert hr
      cases s.render_new <;> simp
    have hs1 : s1 = s := by
      rw [draw, if_neg hr] at h
      exact (Option.some_injective _ h).symm
    refine ⟨?_, ?_, ?_, fun _ => hs1⟩
    · rw [hs1, hrn]
      simp
    · rw [hs1]
      exact hrn
    · rw [hs1, draw, if_neg hr]

/-- Witness for C9, at a one-image state with a pending render. -/
theorem draw_spec_witness :
    draw ⟨[⟨2, 2⟩], some 0, true, true, 0, none, 5, []⟩ =
      some ⟨[⟨2, 2⟩], some 0, false, true, 0, none, 6, []⟩ ∧
    (((⟨[⟨2, 2⟩], some 0, false, true, 0, none, 6, []⟩ : ViewerState).presentCount =
        (⟨[⟨2, 2⟩], some 0, true, true, 0, none, 5, []⟩ : ViewerState).presentCount + 1) ↔
      (⟨[⟨2, 2⟩], some 0, true, true, 0, none, 5, []⟩ : ViewerState).render_new = true) ∧
    draw ⟨[⟨2, 2⟩], some 0, false, true, 0, none, 6, []⟩ =
      some ⟨[⟨2, 2⟩], some 0, false, true, 0, none, 6, []⟩ :=
  ⟨by decide,
   (draw_spec ⟨[⟨2, 2⟩], some 0, true, true, 0, none, 5, []⟩
      ⟨[⟨2, 2⟩], some 0, false, true, 0, none, 6, []⟩ (by decide)).1,
   (draw_spec ⟨[⟨2, 2⟩], some 0, true, true, 0, none, 5, []⟩
      ⟨[⟨2, 2⟩], some 0, false, true, 0, none, 6, []⟩ (by decide)).2.2.1⟩

theorem add_API_image_ok (api : ℤ → FetchOutcome) (s : ViewerState) (b : Bitmap)
    (h : api s.current_date = FetchOutcome.ok b) :
    add_API_image api s =
      some (add_image { s with fetchCalls := s.fetchCalls ++ [s.current_date] }
        (scale_image b)) := by
  simp only [add_API_image]
  rw [h]

theorem add_API_image_osError (api : ℤ → FetchOutcome) (s : ViewerState)
    (h : api s.current_date = FetchOutcome.osError) :
    add_API_image api s =
      some (draw_label
        (fill { s with fetchCalls := s.fetchCalls ++ [s.current_date] }) "Error...") := by
  simp only [add_API_image]
  rw [h]

theorem add_API_image_otherError (api : ℤ → FetchOutcome) (s : ViewerState)
    (h : api s.current_date = FetchOutcome.otherError) :
    add_API_image api s = none := by
  simp only [add_API_image]
  rw [h]

theorem load_and_add_fetch_branch (api : ℤ → FetchOutcome) (s : ViewerState)
    (h : s.current_image = some ((s.images.length : ℤ) - 1)) :
    load_and_add api s =
      add_API_image api
        { s with
            lastLabel := some "Loading..."
            presentCount := s.presentCount + 1
            current_date := s.current_date - 1 } := by
  simp only [load_and_add]
  rw [if_pos h]
  rfl

theorem load_and_add_shift_branch (api : ℤ → FetchOutcome) (s : ViewerState)
    (h : ¬s.current_image = some ((s.images.length : ℤ) - 1)) :
    load_and_add api s = some (shift_right s) := by
  simp only [load_and_add]
  rw [if_neg h]

/-- Claim C5 (confirmed): `load_and_add` branches on whether the cursor
is at the last loaded index.  At the last index it decrements the
request date by one day, issues exactly one fetch — for the decremented
date — and on success scales and appends the result, growing the
sequence by one with the cursor on the new last index.  Strictly below
the last index it issues no fetch and just advances the cursor by
one. -/
theorem load_and_add_branches (api : ℤ → FetchOutcome) (s : ViewerState) (c : ℤ)
    (hc : s.current_image = some c) :
    (c = (s.images.length : ℤ) - 1 →
      (∀ s2, load_and_add api s = some s2 →
        s2.fetchCalls = s.fetchCalls ++ [s.current_date - 1] ∧
        s2.current_date = s.current_date - 1) ∧
      (∀ b, api (s.current_date - 1) = FetchOutcome.ok b →
        ∃ s2, load_and_add api s = some s2 ∧
          s2.images = s.images ++ [scale_image b] ∧
          s2.current_image = some (c + 1) ∧
          s2.current_image = some ((s2.images.length : ℤ) - 1))) ∧
    (c < (s.images.length : ℤ) - 1 →
      load_and_add api s = some (shift_right s) ∧
      (shift_right s).current_image = some (c + 1) ∧
      (shift_right s).images = s.images ∧
      (shift_right s).fetchCalls = s.fetchCalls ∧
      (shift_right s).current_date = s.current_date) := by
  constructor
  · intro hend
    have hcond : s.current_image = some ((s.images.length : ℤ) - 1) := by
      rw [hc, hend]
    constructor
    · intro s2 h2
      rw [load_and_add_fetch_branch api s hcond] at h2
      cases hapi : api (s.current_date - 1) with
      | ok b =>
        rw [add_API_image_ok _ _ b hapi] at h2
        injection h2 with h2
        subst h2
        exact ⟨rfl, rfl⟩
      | osError =>
        rw [add_API_image_osError _ _ hapi] at h2
        injection h2 with h2
        subst h2
        exact ⟨rfl, rfl⟩
      | otherError =>
        rw [add_API_image_otherError _ _ hapi] at h2
        exact absurd h2 (by simp)
    · intro b hb
      rw [load_and_add_fetch_branch api s hcond, add_API_image_ok _ _ b hb]
      refine ⟨_, rfl, rfl, ?_, ?_⟩
      · simp only [add_image, hc]
      · simp only [add_image, hc, List.length_append, List.length_cons,
          List.length_nil]
        rw [hend]
        congr 1
        push_cast
        ring
  · intro hlt
    have hcond : ¬s.current_image = some ((s.images.length : ℤ) - 1) := by
      rw [hc]
      intro hcontra
      injection hcontra with hcontra
      omega
    refine ⟨load_and_add_shift_branch api s hcond, ?_, ?_, ?_, ?_⟩
    · rw [shift_right_some s c hc]
      have : min ((s.images.length : ℤ) - 1) (c + 1) = c + 1 :=
        min_eq_right (by omega)
      simp [this]
    · rw [shift_right_some s c hc]
    · rw [shift_right_some s c hc]
    · rw [shift_right_some s c hc]

/-- Witness for C5: a one-image viewer with the cursor at the last
index 0; the fetch succeeds and the sequence grows to two with the
cursor at the new last index 1. -/
theorem load_and_add_branches_witness :
    ∃ s2, load_and_add (fun _ => FetchOutcome.ok ⟨8, 4⟩)
        ⟨[⟨4, 2⟩], some 0, true, true, 100, none, 0, []⟩ = some s2 ∧
      s2.images = (⟨[⟨4, 2⟩], some 0, true, true, 100, none, 0, []⟩ :
        ViewerState).images ++ [scale_image ⟨8, 4⟩] ∧
      s2.current_image = some (0 + 1) ∧
      s2.current_image = some ((s2.images.length : ℤ) - 1) :=
  ((load_and_add_branches (fun _ => FetchOutcome.ok ⟨8, 4⟩)
      ⟨[⟨4, 2⟩], some 0, true, true, 100, none, 0, []⟩ 0 rfl).1
    (by decide)).2 ⟨8, 4⟩ rfl

/-- Claim C2 (amended): fetch-error handling is the same on paging
fetches as on the initial load, because `load_and_add` goes through the
same `add_API_image`: an `OSError`-kind failure is caught — "Error..."
is shown and the sequence is unchanged — while a non-`OSError` failure
(e.g. a missing `url` field) propagates; the latter equally propagates
out of the initial load.  There is no catch asymmetry between the
initial and subsequent fetches. -/
theorem fetch_error_handling_symmetric (api : ℤ → FetchOutcome) (s : ViewerState)
    (h : s.current_image = some ((s.images.length : ℤ) - 1)) :
    (api (s.current_date - 1) = FetchOutcome.osError →
      ∃ s2, load_and_add api s = some s2 ∧ s2.images = s.images ∧
        s2.current_image = s.current_image ∧ s2.lastLabel = some "Error...") ∧
    (api (s.current_date - 1) = FetchOutcome.otherError →
      load_and_add api s = none) ∧
    (api s.current_date = FetchOutcome.osError →
      ∃ t, add_API_image api s = some t ∧ t.images = s.images ∧
        t.lastLabel = some "Error...") ∧
    (api s.current_date = FetchOutcome.otherError → add_API_image api s = none) := by
  refine ⟨?_, ?_, ?_, ?_⟩
  · intro hapi
    rw [load_and_add_fetch_branch api s h, add_API_image_osError _ _ hapi]
    exact ⟨_, rfl, rfl, rfl, rfl⟩
  · intro hapi
    rw [load_and_add_fetch_branch api s h, add_API_image_otherError _ _ hapi]
  · intro hapi
    rw [add_API_image_osError _ _ hapi]
    exact ⟨_, rfl, rfl, rfl⟩
  · intro hapi
    rw [add_API_image_otherError _ _ hapi]

/-- Witness for C2, at a one-image viewer whose next fetch raises an
`OSError`. -/
theorem fetch_error_handling_symmetric_witness :
    ∃ s2, load_and_add (fun _ => FetchOutcome.osError)
        ⟨[⟨8, 4⟩], some 0, true, true, 100, none, 0, []⟩ = some s2 ∧
      s2.images = (⟨[⟨8, 4⟩], some 0, true, true, 100, none, 0, []⟩ :
        ViewerState).images ∧
      s2.current_image = (⟨[⟨8, 4⟩], some 0, true, true, 100, none, 0, []⟩ :
        ViewerState).current_image ∧
      s2.lastLabel = some "Error..." :=
  (fetch_error_handling_symmetric (fun _ => FetchOutcome.osError)
    ⟨[⟨8, 4⟩], some 0, true, true, 100, none, 0, []⟩ (by decide)).1 rfl

/-- Counterexample to C2 as stated: an `OSError`-kind fetch failure on
a paging fetch does not propagate out of `load_and_add` — the operation
returns normally with "Error..." shown and the date already
decremented, exactly as on the initial load. -/
theorem paging_fetch_error_caught_cex :
    load_and_add (fun _ => FetchOutcome.osError)
        ⟨[⟨8, 4⟩], some 0, true, true, 100, none, 0, []⟩ ≠ none ∧
    load_and_add (fun _ => FetchOutcome.osError)
        ⟨[⟨8, 4⟩], some 0, true, true, 100, none, 0, []⟩ =
      some ⟨[⟨8, 4⟩], some 0, true, true, 99, some "Error...", 2, [99]⟩ := by
  constructor
  · decide
  · decide

theorem load_and_add_date_step (api : ℤ → FetchOutcome) (s s2 : ViewerState)
    (h : load_and_add api s = some s2) :
    s2.current_date ≤ s.current_date ∧
    (s.current_image = some ((s.images.length : ℤ) - 1) →
      s2.current_date = s.current_date - 1 ∧
      s2.fetchCalls = s.fetchCalls ++ [s.current_date - 1]) ∧
    (¬s.current_image = some ((s.images.length : ℤ) - 1) →
      s2.current_date = s.current_date ∧ s2.images = s.images ∧
      s2.fetchCalls = s.fetchCalls) := by
  by_cases hcond : s.current_image = some ((s.images.length : ℤ) - 1)
  · rw [load_and_add_fetch_branch api s hcond] at h
    cases hapi : api (s.current_date - 1) with
    | ok b =>
      rw [add_API_image_ok _ _ b hapi] at h
      injection h with h
      subst h
      refine ⟨?_, fun _ => ⟨rfl, rfl⟩, fun hn => absurd hcond hn⟩
      show s.current_date - 1 ≤ s.current_date
      omega
    | osError =>
      rw [add_API_image_osError _ _ hapi] at h
      injection h with h
      subst h
      refine ⟨?_, fun _ => ⟨rfl, rfl⟩, fun hn => absurd hcond hn⟩
      show s.current_date - 1 ≤ s.current_date
      omega
    | otherError =>
      rw [add_API_image_otherError _ _ hapi] at h
      exact absurd h (by simp)
  · rw [load_and_add_shift_branch api s hcond] at h
    injection h with h
    subst h
    cases hcur : s.current_image with
    | none =>
      rw [hcur] at hcond
      rw [shift_right_none s hcur]
      exact ⟨le_refl _, fun hp => absurd hp hcond, fun _ => ⟨rfl, rfl, rfl⟩⟩
    | some c =>
      rw [hcur] at hcond
      rw [shift_right_some s c hcur]
      exact ⟨le_refl _, fun hp => absurd hp hcond, fun _ => ⟨rfl, rfl, rfl⟩⟩

/-- Claim C4 (amended): the request date never increases over a run of
paging operations, and it is decremented by exactly one day per
older-image fetch *attempt* — each `load_and_add` that finds the cursor
at the last index — whether or not the fetch succeeds; over a run the
total decrement equals the number of fetches issued, not the number of
images successfully appended. -/
theorem request_date_monotone (api : ℤ → FetchOutcome) (s : ViewerState) :
    (∀ s2, load_and_add api s = some s2 →
      s2.current_date ≤ s.current_date ∧
      (s.current_image = some ((s.images.length : ℤ) - 1) →
        s2.current_date = s.current_date - 1 ∧
        s2.fetchCalls = s.fetchCalls ++ [s.current_date - 1]) ∧
      (¬s.current_image = some ((s.images.length : ℤ) - 1) →
        s2.current_date = s.current_date ∧ s2.images = s.images ∧
        s2.fetchCalls = s.fetchCalls)) ∧
    (∀ (n : ℕ) (t : ViewerState), run_pages api n s = some t →
      t.current_date ≤ s.current_date ∧
      s.current_date - t.current_date =
        (t.fetchCalls.length : ℤ) - (s.fetchCalls.length : ℤ)) := by
  constructor
  · exact load_and_add_date_step api s
  · intro n
    induction n generalizing s with
    | zero =>
      intro t ht
      injection ht with ht
      subst ht
      omega
    | succ m ih =>
      intro t ht
      have ht2 : (load_and_add api s).bind (run_pages api m) = some t := ht
      cases hstep : load_and_add api s with
      | none =>
        rw [hstep] at ht2
        exact absurd ht2 (by simp)
      | some u =>
        rw [hstep] at ht2
        have hu := ih u t (show run_pages api m u = some t from ht2)
        have hs := load_and_add_date_step api s u hstep
        by_cases hcond : s.current_image = some ((s.images.length : ℤ) - 1)
        · obtain ⟨hd, hf⟩ := hs.2.1 hcond
          have hflen : u.fetchCalls.length = s.fetchCalls.length + 1 := by
            rw [hf]
            simp
          omega
        · obtain ⟨hd, _, hf⟩ := hs.2.2 hcond
          rw [← hd, ← hf]
          exact hu

/-- Witness for C4: one failed paging fetch decrements the date from
200 to 199 and logs one fetch; a two-step run decrements by two. -/
theorem request_date_monotone_witness :
    ((⟨[⟨6, 3⟩], some 0, true, true, 199, some "Error...", 2, [199]⟩ :
        ViewerState).current_date ≤
      (⟨[⟨6, 3⟩], some 0, true, true, 200, none, 0, []⟩ :
        ViewerState).current_date) ∧
    (⟨[⟨6, 3⟩], some 0, true, true, 200, none, 0, []⟩ :
        ViewerState).current_date -
      (⟨[⟨6, 3⟩], some 0, true, true, 198, some "Error...", 4, [199, 198]⟩ :
        ViewerState).current_date =
      ((⟨[⟨6, 3⟩], some 0, true, true, 198, some "Error...", 4, [199, 198]⟩ :
        ViewerState).fetchCalls.length : ℤ) -
      ((⟨[⟨6, 3⟩], some 0, true, true, 200, none, 0, []⟩ :
        ViewerState).fetchCalls.length : ℤ) :=
  ⟨((request_date_monotone (fun _ => FetchOutcome.osError)
      ⟨[⟨6, 3⟩], some 0, true, true, 200, none, 0, []⟩).1
      ⟨[⟨6, 3⟩], some 0, true, true, 199, some "Error...", 2, [199]⟩ (by decide)).1,
   ((request_date_monotone (fun _ => FetchOutcome.osError)
      ⟨[⟨6, 3⟩], some 0, true, true, 200, none, 0, []⟩).2 2
      ⟨[⟨6, 3⟩], some 0, true, true, 198, some "Error...", 4, [199, 198]⟩ (by decide)).2⟩

/-- Counterexample to C4 as stated: a failed paging fetch decrements
the date (one one-day decrement) while zero older images are fetched
and appended — the decrement count exceeds the successful-append
count. -/
theorem request_date_decrement_without_append_cex :
    load_and_add (fun _ => FetchOutcome.osError)
        ⟨[⟨6, 3⟩], some 0, true, true, 200, none, 0, []⟩ =
      some ⟨[⟨6, 3⟩], some 0, true, true, 199, some "Error...", 2, [199]⟩ ∧
    (⟨[⟨6, 3⟩], some 0, true, true, 199, some "Error...", 2, [199]⟩ :
      ViewerState).current_date =
      (⟨[⟨6, 3⟩], some 0, true, true, 200, none, 0, []⟩ :
        ViewerState).current_date - 1 ∧
    (⟨[⟨6, 3⟩], some 0, true, true, 199, some "Error...", 2, [199]⟩ :
      ViewerState).images =
      (⟨[⟨6, 3⟩], some 0, true, true, 200, none, 0, []⟩ : ViewerState).images := by
  refine ⟨by decide, by decide, by decide⟩

theorem pre_load_none_nil (api : ℤ → FetchOutcome) :
    ∀ (count : ℕ) (s : ViewerState), s.current_image = none → s.images = [] →
      pre_load api count s = some { s with current_image := some 0 } := by
  intro count
  induction count with
  | zero =>
    intro s h1 h2
    rfl
  | succ n ih =>
    intro s h1 h2
    have hcond : ¬s.current_image = some ((s.images.length : ℤ) - 1) := by
      rw [h1]
      simp
    have hland : load_and_add api s = some (shift_right s) :=
      load_and_add_shift_branch api s hcond
    have hsr : shift_right s = s := shift_right_none s h1
    show (load_and_add api s).bind (pre_load api n) = _
    rw [hland, hsr]
    exact ih s h1 h2

/-- Claim C10 (confirmed): `pre_load` sets the cursor to 0
unconditionally at the end, even when the image sequence is empty —
each in-loop `load_and_add` takes the no-fetch shift branch because an
unset cursor never equals `length - 1` — so after `pre_load` on an
empty sequence the cursor is set to 0 with length 0, violating the
"unset when empty" cursor invariant (and no fetch is ever issued). -/
theorem pre_load_breaks_cursor_invariant (api : ℤ → FetchOutcome) (count : ℕ)
    (s : ViewerState) (h1 : s.current_image = none) (h2 : s.images = []) :
    ∃ t, pre_load api count s = some t ∧ t.current_image = some 0 ∧
      t.images = [] ∧ t.fetchCalls = s.fetchCalls :=
  ⟨{ s with current_image := some 0 }, pre_load_none_nil api count s h1 h2,
    rfl, h2, rfl⟩

/-- Witness for C10, on an empty viewer after a failed initial load,
with three preload iterations. -/
theorem pre_load_breaks_cursor_invariant_witness :
    ∃ t, pre_load (fun _ => FetchOutcome.osError) 3
        ⟨[], none, true, true, 50, some "Error...", 2, [50]⟩ = some t ∧
      t.current_image = some 0 ∧ t.images = [] ∧
      t.fetchCalls = (⟨[], none, true, true, 50, some "Error...", 2, [50]⟩ :
        ViewerState).fetchCalls :=
  pre_load_breaks_cursor_invariant (fun _ => FetchOutcome.osError) 3
    ⟨[], none, true, true, 50, some "Error...", 2, [50]⟩ rfl rfl

/-- Claim C1 (code bug): when the initial fetch raises an `OSError`,
the constructor catches it — the sequence stays empty and "Error..." is
shown, as the claim states — but `pre_load` then sets the cursor to 0
(the claim says it stays unset), and the first `draw` of the run loop,
with the render flag still set, indexes the empty list and raises an
`IndexError`, crashing the loop (the claim says it keeps running). -/
theorem initial_fetch_failure_crashes (api : ℤ → FetchOutcome) (today : ℤ)
    (preload : ℕ) (hapi : api today = FetchOutcome.osError) :
    ∃ s, APODViewer_init api today preload = some s ∧
      s.images = [] ∧ s.current_image = some 0 ∧
      s.lastLabel = some "Error..." ∧ s.render_new = true ∧
      draw s = none := by
  refine ⟨⟨[], some 0, true, true, today, some "Error...", 2, [today]⟩,
    ?_, rfl, rfl, rfl, rfl, rfl⟩
  show (add_API_image api
      (draw_label ⟨[], none, true, true, today, none, 0, []⟩ "Loading...")).bind
        (fun s2 => pre_load api preload s2) =
    some ⟨[], some 0, true, true, today, some "Error...", 2, [today]⟩
  rw [add_API_image_osError _ _ (show api (draw_label ⟨[], none, true, true,
    today, none, 0, []⟩ "Loading...").current_date = FetchOutcome.osError from hapi)]
  exact pre_load_none_nil api preload
    ⟨[], none, true, true, today, some "Error...", 2, [today]⟩ rfl rfl

/-- Witness for C1, with every fetch failing, six preload iterations
(as in `__main__`) and day number 20000. -/
theorem initial_fetch_failure_crashes_witness :
    ∃ s, APODViewer_init (fun _ => FetchOutcome.osError) 20000 6 = some s ∧
      s.images = [] ∧ s.current_image = some 0 ∧
      s.lastLabel = some "Error..." ∧ s.render_new = true ∧
      draw s = none :=
  initial_fetch_failure_crashes (fun _ => FetchOutcome.osError) 20000 6 rfl

theorem pre_load_all_ok (api : ℤ → FetchOutcome) (bmp : ℤ → Bitmap)
    (hapi : ∀ d, api d = FetchOutcome.ok (bmp d)) :
    ∀ (count : ℕ) (s : ViewerState),
      s.current_image = some ((s.images.length : ℤ) - 1) →
      ∃ t, pre_load api count s = some t ∧
        t.images.length = s.images.length + count ∧
        t.current_image = some 0 ∧
        t.current_date = s.current_date - count := by
  intro count
  induction count with
  | zero =>
    intro s hc
    exact ⟨{ s with current_image := some 0 }, rfl, rfl, rfl, by simp⟩
  | succ n ih =>
    intro s hc
    have hrw := load_and_add_fetch_branch api s hc
    have hok := add_API_image_ok api
      { s with
          lastLabel := some "Loading..."
          presentCount := s.presentCount + 1
          current_date := s.current_date - 1 }
      (bmp (s.current_date - 1)) (hapi (s.current_date - 1))
    set u := add_image
      { s with
          lastLabel := some "Loading..."
          presentCount := s.presentCount + 1
          current_date := s.current_date - 1
          fetchCalls := s.fetchCalls ++ [s.current_date - 1] }
      (scale_image (bmp (s.current_date - 1))) with hu
    have hu_img : u.images = s.images ++ [scale_image (bmp (s.current_date - 1))] := rfl
    have hu_len : u.images.length = s.images.length + 1 := by
      rw [hu_img]
      simp
    have hu_date : u.current_date = s.current_date - 1 := rfl
    have hu_c : u.current_image = some ((u.images.length : ℤ) - 1) := by
      have h1 : u.current_image =
          match s.current_image with
          | none => some 0
          | some c => some (c + 1) := rfl
      rw [h1, hc, hu_len]
      push_cast
      congr 1
      ring
    obtain ⟨t, hpre, hlen, hcur, hdate⟩ := ih u hu_c
    refine ⟨t, ?_, ?_, hcur, ?_⟩
    · show (load_and_add api s).bind (pre_load api n) = some t
      rw [hrw, hok]
      exact hpre
    · rw [hlen, hu_len]
      omega
    · rw [hdate, hu_date]
      push_cast
      ring

/-- Claim C8 (confirmed): on a fresh viewer whose fetches all succeed,
the constructor's initial load plus `pre_load count` yields `count + 1`
images, the cursor reset to 0 regardless of where the preloading left
it, and the request date `count` days before today; in particular
`preload = 2` gives three images and today minus two. -/
theorem pre_load_scenario (api : ℤ → FetchOutcome) (bmp : ℤ → Bitmap)
    (hapi : ∀ d, api d = FetchOutcome.ok (bmp d)) (today : ℤ) (count : ℕ) :
    ∃ s, APODViewer_init api today count = some s ∧
      s.images.length = count + 1 ∧ s.current_image = some 0 ∧
      s.current_date = today - count := by
  have hok := add_API_image_ok api
    (draw_label ⟨[], none, true, true, today, none, 0, []⟩ "Loading...")
    (bmp today) (hapi today)
  set u := add_image
    ⟨[], none, true, true, today, some "Loading...", 1, [today]⟩
    (scale_image (bmp today)) with hu
  have hu_c : u.current_image = some ((u.images.length : ℤ) - 1) := rfl
  obtain ⟨t, hpre, hlen, hcur, hdate⟩ := pre_load_all_ok api bmp hapi count u hu_c
  refine ⟨t, ?_, ?_, hcur, ?_⟩
  · show (add_API_image api
        (draw_label ⟨[], none, true, true, today, none, 0, []⟩ "Loading...")).bind
          (fun s2 => pre_load api count s2) = some t
    rw [hok]
    exact hpre
  · rw [hlen]
    have : u.images.length = 1 := rfl
    omega
  · rw [hdate]
    have : u.current_date = today := rfl
    rw [this]

/-- Witness for C8: constant successful fetches, day number 738000 and
two preloaded days give three images, cursor 0 and date 737998. -/
theorem pre_load_scenario_witness :
    ∃ s, APODViewer_init (fun _ => FetchOutcome.ok ⟨4, 3⟩) 738000 2 = some s ∧
      s.images.length = 2 + 1 ∧ s.current_image = some 0 ∧
      s.current_date = 738000 - (2 : ℕ) :=
  pre_load_scenario (fun _ => FetchOutcome.ok ⟨4, 3⟩) (fun _ => ⟨4, 3⟩)
    (fun _ => rfl) 738000 2

/-- Claim C7 (amended): `scale_image` chooses its factor by the
asymmetric rule — the width ratio `600 / w` when the image is wider
than tall, else the height ratio `450 / h` — and not a min-ratio fit
(a 1200×1000 image scales to height 500, overflowing the 450-high
window, which a min-fit never does); in the program's double-precision
arithmetic the corresponding output dimension after `int()` truncation
is the window's dimension or one pixel below it — exact equality can
fail by a final float rounding. -/
theorem scale_image_corresponding_dim (b : Bitmap) (hw : 0 < b.w) (hh : 0 < b.h) :
    (b.h < b.w → ((scale_image b).w = 600 ∨ (scale_image b).w = 599)) ∧
    (b.w ≤ b.h → ((scale_image b).h = 450 ∨ (scale_image b).h = 449)) ∧
    (scale_image ⟨1200, 1000⟩).h = 500 := by
  refine ⟨?_, ?_, by decide⟩
  · intro hlt
    have hcond : b.w > b.h := hlt
    have hrw : (scale_image b).w = truncP (flMulP (flDivP 600 b.w) b.w) := by
      simp only [scale_image]
      rw [if_pos hcond]
    rw [hrw]
    rcases trunc_chain 600 b.w (by norm_num) hw (by norm_num) with h | h
    · exact Or.inl h
    · exact Or.inr (by omega)
  · intro hle
    have hcond : ¬b.w > b.h := by omega
    have hrw : (scale_image b).h = truncP (flMulP (flDivP 450 b.h) b.h) := by
      simp only [scale_image]
      rw [if_neg hcond]
    rw [hrw]
    rcases trunc_chain 450 b.h (by norm_num) hh (by norm_num) with h | h
    · exact Or.inl h
    · exact Or.inr (by omega)

/-- Witness for C7, on a 600×450 image (width branch) and a 300×400
image (height branch). -/
theorem scale_image_corresponding_dim_witness :
    ((scale_image ⟨600, 450⟩).w = 600 ∨ (scale_image ⟨600, 450⟩).w = 599) ∧
    ((scale_image ⟨300, 400⟩).h = 450 ∨ (scale_image ⟨300, 400⟩).h = 449) :=
  ⟨(scale_image_corresponding_dim ⟨600, 450⟩ (by decide) (by decide)).1 (by decide),
   (scale_image_corresponding_dim ⟨300, 400⟩ (by decide) (by decide)).2.1 (by decide)⟩

/-- Counterexample to C7 as stated: a 20×21 image takes the height
branch and scales to height 449, not exactly the window height 450:
`(450 / 21) * 21` in binary64 is 449.99999999999994, which `int()`
truncates to 449. -/
theorem scale_image_not_exact_cex :
    (scale_image ⟨20, 21⟩).h = 449 ∧ ¬(scale_image ⟨20, 21⟩).h = 450 :=
  ⟨by decide, by decide⟩

